import Mathlib

/-!
Shallow embedding of `src/tools/move_frame.py` (beamer frame move/copy/delete
tool).  Documents are modelled as lists of lines (`List String`), exactly the
form the Python code works in after `content.split('\n')`; the final
`'\n'.join(...)` is the inverse of that split for lines containing no newline
character, so line-level equality of results coincides with byte-level
equality of the written files.  File-system effects are modelled by returning
the list of `(path, new lines)` writes; `sys.exit(1)` error paths are
modelled as `Except.error msg` carrying the printed message, and by
construction of the source (every validation precedes every `write_text`)
an error result corresponds to no file being written.
-/

namespace MoveFrame

/-- Python regex `\s` on ASCII input: space, tab, newline, carriage return,
vertical tab, form feed (`re` also accepts further Unicode whitespace, which
never occurs in the inputs of interest). -/
def isPySpace (c : Char) : Bool :=
  c = ' ' || c = '\t' || c = '\n' || c = '\r' || c = '\x0b' || c = '\x0c'

/-- Characters of `line` after the leading whitespace consumed by a `\s*`
regex pattern anchored at the start of the line (`re.match`). -/
def afterSpaces (line : String) : List Char := line.toList.dropWhile isPySpace

/-- Model of `re.match(r'\s*\\againframe', line)`. -/
def isAgainframe (line : String) : Bool :=
  "\\againframe".toList.isPrefixOf (afterSpaces line)

/-- Model of `re.match(r'\s*\\begin\{frame\}', line)`. -/
def isBeginFrame (line : String) : Bool :=
  "\\begin{frame}".toList.isPrefixOf (afterSpaces line)

/-- Model of `re.match(r'\s*\\end\{frame\}', line)`. -/
def isEndFrame (line : String) : Bool :=
  "\\end{frame}".toList.isPrefixOf (afterSpaces line)

/-- Model of `re.match(r'\s*\\frame\{', line)` (single-line shorthand). -/
def isFrameShorthand (line : String) : Bool :=
  "\\frame\x7b".toList.isPrefixOf (afterSpaces line)

/-- Model of `re.match(r'\s*%', line)`: a comment line. -/
def isCommentLine (line : String) : Bool :=
  "%".toList.isPrefixOf (afterSpaces line)

/-- Python slice `l[s:e]` for 0 ≤ s, e. -/
def sliceL {α : Type _} (l : List α) (s e : Nat) : List α := (l.take e).drop s

/-- Back-scan of `parse_frames` (source lines 46-48 and 66-69):
`while start_idx > 0 and re.match(r'\s*%', lines[start_idx - 1]): start_idx -= 1`.
Absorbs the comment lines immediately above position `b`. -/
def backScan (lines : List String) : Nat → Nat
  | 0 => 0
  | n + 1 => if isCommentLine (lines.getD n "") then backScan lines n else n + 1

/-- Depth loop of `parse_frames` (source lines 51-58): starting at line `j`
with nesting depth `depth`, advance while `j < len(lines)` and `depth > 0`,
incrementing the depth at a `\begin{frame}` line and decrementing it at an
`\end{frame}` line; the result is the exclusive end index of the span.  The
structural `fuel` argument only bounds the iteration count; since `j`
advances every step and the loop stops once `j` reaches `len(lines)`, any
fuel of at least `lines.length - j` (the callers pass `lines.length`)
reproduces the Python loop exactly. -/
def findEnd (lines : List String) : Nat → Nat → Int → Nat
  | 0, j, _ => j
  | fuel + 1, j, depth =>
    if j < lines.length ∧ 0 < depth then
      if isBeginFrame (lines.getD j "") then findEnd lines fuel (j + 1) (depth + 1)
      else if isEndFrame (lines.getD j "") then findEnd lines fuel (j + 1) (depth - 1)
      else findEnd lines fuel (j + 1) depth
    else j

theorem findEnd_ge (lines : List String) (fuel j : Nat) (d : Int) :
    j ≤ findEnd lines fuel j d := by
  induction fuel generalizing j d with
  | zero => exact le_refl j
  | succ fuel ih =>
    rw [findEnd]
    split
    · split
      · exact le_trans (Nat.le_succ j) (ih (j + 1) (d + 1))
      · split
        · exact le_trans (Nat.le_succ j) (ih (j + 1) (d - 1))
        · exact le_trans (Nat.le_succ j) (ih (j + 1) d)
    · exact le_refl j

theorem findEnd_le (lines : List String) (fuel j : Nat) (d : Int) (hj : j ≤ lines.length) :
    findEnd lines fuel j d ≤ lines.length := by
  induction fuel generalizing j d with
  | zero => exact hj
  | succ fuel ih =>
    rw [findEnd]
    split
    · rename_i h
      split
      · exact ih (j + 1) (d + 1) h.1
      · split
        · exact ih (j + 1) (d - 1) h.1
        · exact ih (j + 1) d h.1
    · exact hj

/-- Scanner loop of `parse_frames` (source lines 35-76), with the cursor `i`
made explicit.  At an `\againframe` line the cursor just advances; at a
`\begin{frame}` line a span is emitted from the back-scanned start to the
matching (nesting-aware) end and the cursor jumps to that end; at a
single-line `\frame{...}` shorthand a one-line span (plus absorbed comments)
is emitted; any other line advances the cursor.  The structural `fuel`
argument only bounds the iteration count: the cursor strictly advances every
iteration and the loop stops at `len(lines)`, so fuel `lines.length - i`
(the entry point passes `lines.length`) reproduces the Python loop exactly. -/
def parse_frames_aux (lines : List String) : Nat → Nat → List (Nat × Nat × List String)
  | 0, _ => []
  | fuel + 1, i =>
    if i < lines.length then
      if isAgainframe (lines.getD i "") then parse_frames_aux lines fuel (i + 1)
      else if isBeginFrame (lines.getD i "") then
        (backScan lines i, findEnd lines lines.length (i + 1) 1,
          sliceL lines (backScan lines i) (findEnd lines lines.length (i + 1) 1)) ::
          parse_frames_aux lines fuel (findEnd lines lines.length (i + 1) 1)
      else if isFrameShorthand (lines.getD i "") then
        (backScan lines i, i + 1, sliceL lines (backScan lines i) (i + 1)) ::
          parse_frames_aux lines fuel (i + 1)
      else parse_frames_aux lines fuel (i + 1)
    else []

/-- Model of `parse_frames(content)` (source lines 24-78) on the line list
`content.split('\n')`.  Each element is `(start_idx, end_idx, frame_lines)`
where the Python function stores `'\n'.join(lines[start_idx:end_idx])` as the
third component; we keep the line list itself, which carries the same
information since the lines contain no newline character. -/
def parse_frames (lines : List String) : List (Nat × Nat × List String) :=
  parse_frames_aux lines lines.length 0

/-- Specification predicate: position `k` is a barrier for the comment
back-scan — the top of the document, or preceded by a non-comment line — so
`backScan` never moves below it. -/
def Good (lines : List String) (k : Nat) : Prop :=
  k = 0 ∨ isCommentLine (lines.getD (k - 1) "") = false

/-- Depth update of one line of the `findEnd` loop (source lines 54-57). -/
def stepDepth (line : String) (d : Int) : Int :=
  if isBeginFrame line then d + 1 else if isEndFrame line then d - 1 else d

/-- Nesting depth after the `findEnd` loop has processed `lines[j:k]`
starting from depth `d`. -/
def depthRun (lines : List String) (j k : Nat) (d : Int) : Int :=
  (sliceL lines j k).foldl (fun acc line => stepDepth line acc) d

/-- Structural invariant of every span the scanner emits: there is a marker
line `b` such that the span start is the comment back-scan from `b`, the
span text is the slice of the span, and the span is either a one-line
`\frame{...}` shorthand or a `\begin{frame}` span closed by the
nesting-aware `findEnd`. -/
def FrameInv (lines : List String) (f : Nat × Nat × List String) : Prop :=
  ∃ b, f.1 = backScan lines b ∧ f.1 ≤ b ∧ b < f.2.1 ∧ f.2.1 ≤ lines.length ∧
    b < lines.length ∧ f.2.2 = sliceL lines f.1 f.2.1 ∧
    ((isFrameShorthand (lines.getD b "") = true ∧ f.2.1 = b + 1) ∨
     (isBeginFrame (lines.getD b "") = true ∧
       f.2.1 = findEnd lines lines.length (b + 1) 1))

/- ### Range parsing (`parse_range`, source lines 10-21) -/

/-- Numeric value of a decimal digit character. -/
def digitVal (c : Char) : Nat := c.toNat - 48

/-- Continuation of the base-10 digit grammar of Python `int()`: digits with
single underscores allowed between digits only. -/
def digitsAux : Nat → List Char → Option Nat
  | acc, [] => some acc
  | acc, c :: rest =>
    if c = '_' then
      match rest with
      | [] => none
      | d :: rest2 =>
        if d.isDigit then digitsAux (acc * 10 + digitVal d) rest2 else none
    else if c.isDigit then digitsAux (acc * 10 + digitVal c) rest else none

/-- Value of a nonempty base-10 digit run per Python `int()` (underscores
permitted between digits, not leading, trailing, or doubled). -/
def digitsVal : List Char → Option Nat
  | [] => none
  | c :: rest => if c.isDigit then digitsAux (digitVal c) rest else none

/-- Strip the leading and trailing whitespace that Python `int()` tolerates. -/
def stripPySpaces (l : List Char) : List Char :=
  ((l.dropWhile isPySpace).reverse.dropWhile isPySpace).reverse

/-- Model of Python `int(s)` in base 10: optional surrounding whitespace,
optional sign, then a digit run (Unicode digits are ignored by this model,
which is limited to ASCII inputs). `none` models the `ValueError` raised on
a non-numeric literal. -/
def pyIntList (l : List Char) : Option Int :=
  match stripPySpaces l with
  | '+' :: rest => (digitsVal rest).map (fun n => (n : Int))
  | '-' :: rest => (digitsVal rest).map (fun n => -(n : Int))
  | rest => (digitsVal rest).map (fun n => (n : Int))

/-- Model of Python `str.split(c)` for a one-character separator: splits at
every occurrence, keeping empty pieces, and yields `[""]` on the empty
string. -/
def pySplit (c : Char) : List Char → List (List Char)
  | [] => [[]]
  | x :: xs =>
    if x = c then [] :: pySplit c xs
    else
      match pySplit c xs with
      | [] => [[x]]
      | ys :: rest => (x :: ys) :: rest

/-- Model of Python `list(range(a, b + 1))`. -/
def pyRange (a b : Int) : List Int :=
  (List.range (b + 1 - a).toNat).map (fun k : Nat => a + (k : Int))

/-- Message of the `ValueError` Python's `int()` raises on a bad literal
(Python additionally quotes the literal's `repr`). -/
def invalidLiteralMsg (part : List Char) : String :=
  "invalid literal for int() with base 10: " ++ String.mk part

/-- Model of `parse_range` (source lines 10-21): a token containing `-` is
split on every `-` and must have exactly two parts, both numeric, in
ascending order, yielding the inclusive range; otherwise the token itself
must be numeric and yields a singleton.  Errors carry the message of the
`ValueError` the Python code raises. -/
def parse_range (s : String) : Except String (List Int) :=
  if s.toList.contains '-' then
    match pySplit '-' s.toList with
    | [a, b] =>
      match pyIntList a with
      | none => .error (invalidLiteralMsg a)
      | some start =>
        match pyIntList b with
        | none => .error (invalidLiteralMsg b)
        | some stop =>
          if start > stop then
            .error s!"Invalid range: start ({start}) > end ({stop})"
          else .ok (pyRange start stop)
    | _ => .error s!"Invalid range format: {s}"
  else
    match pyIntList s.toList with
    | some n => .ok [n]
    | none => .error (invalidLiteralMsg s.toList)

/- ### Error messages printed by `delete_frames` / `move_frames` -/

/-- Message of source lines 115/143: `Error: No frames found in {file}`. -/
def noFramesMsg (f : String) : String := s!"Error: No frames found in {f}"

/-- Message of source lines 121/149: the `--from` position out-of-range
report, naming the offending position and the valid bounds. -/
def fromRangeMsg (p : Int) (n : Nat) : String :=
  s!"Error: --from {p} is out of range (1-{n})"

/-- Message of source lines 168/194: the `--to` position out-of-range report;
`bound` is `len(dest_frames) + 1` cross-file and `len(frames)` in place. -/
def toRangeMsg (p : Int) (bound : Nat) : String :=
  s!"Error: --to {p} is out of range (1-{bound})"

/-- Message of source line 161: `Error: Output file {file} does not exist`. -/
def noOutputMsg (f : String) : String := s!"Error: Output file {f} does not exist"

/-- Validation loop of source lines 119-122 / 147-150: the first `pos` in
`from_positions` with `pos < 1 or pos > len(frames)`, if any. -/
def firstInvalidFrom (ps : List Int) (n : Nat) : Option Int :=
  ps.find? (fun p => decide (p < 1 ∨ (n : Int) < p))

/-- Line list of the frame at 1-indexed position `p` (source expression
`frames[pos - 1][2]`); positions are validated before this is reached, so the
out-of-range default is never consulted in the modelled control flow. -/
def frameLinesAt (frames : List (Nat × Nat × List String)) (p : Int) : List String :=
  (frames.getD (p - 1).toNat (0, 0, [])).2.2

/-- Source lines 153-154 followed by the later `.split('\n')` at lines
178/241: `'\n'.join(frame_texts)` re-split on newlines is exactly the
concatenation of the selected frames' line lists (each nonempty,
newline-free); for an empty selection the join is `""`, which splits to
`[""]` (Python itself would already have raised an `IndexError` at line 155
in that case, which no modelled caller reaches). -/
def combinedFrameLines (frames : List (Nat × Nat × List String)) (ps : List Int) : List String :=
  if ps.isEmpty then [""] else (ps.map (frameLinesAt frames)).flatten

/-- Start index of the span of the frame at 1-indexed position `p`. -/
def spanStartOf (frames : List (Nat × Nat × List String)) (p : Int) : Nat :=
  (frames.getD (p - 1).toNat (0, 0, [])).1

/-- Exclusive end index of the span of the frame at 1-indexed position `p`. -/
def spanEndOf (frames : List (Nat × Nat × List String)) (p : Int) : Nat :=
  (frames.getD (p - 1).toNat (0, 0, [])).2.1

/-- Removal loop of source lines 127-129 / 186-188: for each position in
reverse order, delete the slice of its span (spans taken from the index of
the original text, removals applied back to front so earlier indices stay
valid). -/
def removeFrames (frames : List (Nat × Nat × List String)) (ps : List Int)
    (lines : List String) : List String :=
  ps.reverse.foldl
    (fun acc p => acc.take (spanStartOf frames p) ++ acc.drop (spanEndOf frames p)) lines

/-- Model of `delete_frames` (source lines 109-133): validate, then write the
input file with all selected spans removed. -/
def delete_frames (input_file : String) (lines : List String) (from_positions : List Int) :
    Except String (List (String × List String)) :=
  let frames := parse_frames lines
  if frames.isEmpty then .error (noFramesMsg input_file)
  else
    match firstInvalidFrom from_positions frames.length with
    | some p => .error (fromRangeMsg p frames.length)
    | none => .ok [(input_file, removeFrames frames from_positions lines)]

/- ### Position algebra of the in-place move (source lines 202-241) -/

/-- Source lines 225/236: adjust a line index by the removed line count when
it lay after the start of the removed range (`x - removed_count if
x > first_frame_start else x`). -/
def pyAdj (firstStart : Nat) (removed : Int) (x : Nat) : Int :=
  if firstStart < x then (x : Int) - removed else (x : Int)

/-- Walk of source lines 216-229: scan the original index, skip removed
positions, count kept frames, and when the running count reaches `to_pos`
return that frame's adjusted start (`some`); `none` models the loop falling
through to its `else` clause. `i` is the 0-based enumeration index and `cnt`
the count of kept frames seen so far. -/
def walkInsert (fp : List Int) (to_pos : Int) (firstStart : Nat) (removed : Int) :
    List (Nat × Nat × List String) → Nat → Int → Option Int
  | [], _, _ => none
  | f :: rest, i, cnt =>
    if fp.contains ((i : Int) + 1) then walkInsert fp to_pos firstStart removed rest (i + 1) cnt
    else if cnt + 1 = to_pos then some (pyAdj firstStart removed f.1)
    else walkInsert fp to_pos firstStart removed rest (i + 1) (cnt + 1)

/-- Fallback scan of source lines 232-237: the adjusted end of the last
frame whose position was not removed (`last_remaining`), threaded through an
accumulator exactly like the Python loop variable. -/
def lastRemaining (fp : List Int) (firstStart : Nat) (removed : Int) :
    List (Nat × Nat × List String) → Nat → Option Int → Option Int
  | [], _, acc => acc
  | f :: rest, i, acc =>
    if fp.contains ((i : Int) + 1) then lastRemaining fp firstStart removed rest (i + 1) acc
    else lastRemaining fp firstStart removed rest (i + 1) (some (pyAdj firstStart removed f.2.1))

/-- Combination of source lines 216-238: the line offset at which the moved
text is re-inserted.  When the walk breaks at the `to_pos`-th kept frame the
offset is that frame's adjusted start; otherwise (`for ... else`) it is the
adjusted end of the last kept frame, with Python's truthiness test sending
both `None` and `0` to `len(lines_without_moved)`; with no frames at all the
initial `insert_at = 0` survives. -/
def inPlaceInsertAt (frames : List (Nat × Nat × List String)) (ps : List Int) (to_pos : Int)
    (firstStart : Nat) (removed : Int) (lwLen : Nat) : Int :=
  match walkInsert ps to_pos firstStart removed frames 0 0 with
  | some v => v
  | none =>
    if frames.isEmpty then 0
    else
      match lastRemaining ps firstStart removed frames 0 none with
      | some v => if v = 0 then (lwLen : Int) else v
      | none => (lwLen : Int)

/-- Python slice bound `l[:n]` / `l[n:]` for a possibly negative `n`
(negative indices count from the end, clamped at 0). -/
def pyIdx (n : Int) (len : Nat) : Nat :=
  if 0 ≤ n then min n.toNat len else len - min (-n).toNat len

/-- Python `l[:n]` for an arbitrary integer bound. -/
def pyTake {α : Type _} (n : Int) (l : List α) : List α := l.take (pyIdx n l.length)

/-- Python `l[n:]` for an arbitrary integer bound. -/
def pyDrop {α : Type _} (n : Int) (l : List α) : List α := l.drop (pyIdx n l.length)

/-- In-place branch of `move_frames` (source lines 191-245): validate
`to_pos` against the frame count, short-circuit the single-frame no-op,
otherwise remove the contiguous run from the first selected span's start to
the last selected span's end and re-insert the concatenated frame text at
the computed offset, writing `dest_file` (the `-o` target if given, else the
input file). -/
def inPlaceMove (lines : List String) (frames : List (Nat × Nat × List String))
    (from_positions : List Int) (to_pos : Int) (dest_file : String) :
    Except String (List (String × List String)) :=
  if to_pos < 1 ∨ (frames.length : Int) < to_pos then
    .error (toRangeMsg to_pos frames.length)
  else if from_positions.length = 1 ∧ from_positions.headD 0 = to_pos then .ok []
  else
    let firstStart := spanStartOf frames (from_positions.headD 0)
    let lastEnd := spanEndOf frames (from_positions.getLastD 0)
    let lw := lines.take firstStart ++ lines.drop lastEnd
    let removed : Int := (lastEnd : Int) - (firstStart : Int)
    let ins := inPlaceInsertAt frames from_positions to_pos firstStart removed lw.length
    .ok [(dest_file, pyTake ins lw ++ combinedFrameLines frames from_positions ++ pyDrop ins lw)]

/-- Insertion offset of source lines 173-176: the start of the destination
span at `to_pos` when `to_pos <= len(dest_frames)`, otherwise the end of the
last destination span (`dest_frames[-1][1]`), or, when the destination has no
frames at all, `len(dest_lines)` — the end of the destination document. -/
def crossInsertAt (dest_frames : List (Nat × Nat × List String)) (dest_lines : List String)
    (to_pos : Int) : Nat :=
  if to_pos ≤ (dest_frames.length : Int) then spanStartOf dest_frames to_pos
  else
    match dest_frames.getLast? with
    | some f => f.2.1
    | none => dest_lines.length

/-- Cross-file branch of `move_frames` (source lines 158-190): the output
file must exist, `to_pos` is validated against `len(dest_frames) + 1`, the
combined frame text is inserted at `crossInsertAt`, the destination is
written first, and in move mode the source is then written with its frame
spans removed. -/
def crossFileMove (input_file : String) (lines : List String)
    (frames : List (Nat × Nat × List String)) (from_positions : List Int) (to_pos : Int)
    (out : String) (lookup : String → Option (List String)) (copy_mode : Bool) :
    Except String (List (String × List String)) :=
  match lookup out with
  | none => .error (noOutputMsg out)
  | some dest_lines =>
    let dest_frames := parse_frames dest_lines
    if to_pos < 1 ∨ (dest_frames.length : Int) + 1 < to_pos then
      .error (toRangeMsg to_pos (dest_frames.length + 1))
    else
      let new_dest :=
        dest_lines.take (crossInsertAt dest_frames dest_lines to_pos) ++
          combinedFrameLines frames from_positions ++
          dest_lines.drop (crossInsertAt dest_frames dest_lines to_pos)
      if copy_mode then .ok [(out, new_dest)]
      else .ok [(out, new_dest), (input_file, removeFrames frames from_positions lines)]

/-- Model of `move_frames` (source lines 136-245).  `lines` is the split
content of `input_file`; `lookup` models reading a (possibly absent)
destination file; the result is the list of `(path, new lines)` writes in
the order the Python code performs them, or the error message printed before
`sys.exit(1)`.  The branch on `output_file and output_file != input_file`
(source line 158) decides cross-file versus in-place. -/
def move_frames (input_file : String) (lines : List String) (from_positions : List Int)
    (to_pos : Int) (output_file : Option String) (lookup : String → Option (List String))
    (copy_mode : Bool) : Except String (List (String × List String)) :=
  let frames := parse_frames lines
  if frames.isEmpty then .error (noFramesMsg input_file)
  else
    match firstInvalidFrom from_positions frames.length with
    | some p => .error (fromRangeMsg p frames.length)
    | none =>
      match output_file with
      | some out =>
        if out = input_file then inPlaceMove lines frames from_positions to_pos out
        else crossFileMove input_file lines frames from_positions to_pos out lookup copy_mode
      | none => inPlaceMove lines frames from_positions to_pos input_file

/-- Composition performed by `main` (source lines 299-309) for a move/copy:
parse the `--from` token, print `Error: {e}` on a `ValueError`, otherwise
run `move_frames`. -/
def run_move (input_file : String) (lines : List String) (from_str : String) (to_pos : Int)
    (output_file : Option String) (lookup : String → Option (List String)) (copy_mode : Bool) :
    Except String (List (String × List String)) :=
  match parse_range from_str with
  | .error e => .error s!"Error: {e}"
  | .ok ps => move_frames input_file lines ps to_pos output_file lookup copy_mode

/-- Composition performed by `main` (source lines 290-297) for a delete. -/
def run_delete (input_file : String) (lines : List String) (from_str : String) :
    Except String (List (String × List String)) :=
  match parse_range from_str with
  | .error e => .error s!"Error: {e}"
  | .ok ps => delete_frames input_file lines ps

/-! ### Lemmas about `pySplit` and `pyRange` -/

theorem pySplit_no_sep (c : Char) (l : List Char) (h : c ∉ l) : pySplit c l = [l] := by
  induction l with
  | nil => rfl
  | cons x xs ih =>
    have hx : ¬ x = c := by rintro rfl; exact h (List.mem_cons_self _ _)
    have hxs : c ∉ xs := fun hm => h (List.mem_cons_of_mem _ hm)
    simp [pySplit, hx, ih hxs]

theorem pySplit_sep (c : Char) (a b : List Char) (ha : c ∉ a) :
    pySplit c (a ++ c :: b) = a :: pySplit c b := by
  induction a with
  | nil => simp [pySplit]
  | cons x xs ih =>
    have hx : ¬ x = c := by rintro rfl; exact ha (List.mem_cons_self _ _)
    have hxs : c ∉ xs := fun hm => ha (List.mem_cons_of_mem _ hm)
    simpa [pySplit, hx] using by rw [ih hxs]

theorem pyRange_length (m n : Int) : (pyRange m n).length = (n + 1 - m).toNat := by
  rw [pyRange, List.length_map, List.length_range]

theorem pyRange_get (m n : Int) (k : Nat) (h : k < (pyRange m n).length) :
    (pyRange m n).get ⟨k, h⟩ = m + k := by
  simp only [pyRange, List.get_eq_getElem, List.getElem_map, List.getElem_range]

/-! ### Lemmas about the scanner -/

theorem prefix_head {p l : List Char} {c : Char} (hp : p.isPrefixOf l = true)
    (hh : p.head? = some c) : l.head? = some c := by
  cases p with
  | nil => simp at hh
  | cons a as =>
    cases l with
    | nil => simp [List.isPrefixOf] at hp
    | cons b bs =>
      simp only [List.isPrefixOf, Bool.and_eq_true, beq_iff_eq] at hp
      simp only [List.head?_cons, Option.some.injEq] at hh ⊢
      rw [← hp.1, hh]

theorem not_comment_of_head (line : String) (c : Char)
    (h : (afterSpaces line).head? = some c) (hc : c ≠ '%') :
    isCommentLine line = false := by
  rw [isCommentLine]
  cases hA : afterSpaces line with
  | nil => rw [hA] at h; simp at h
  | cons x r =>
    rw [hA] at h
    simp only [List.head?_cons, Option.some.injEq] at h
    subst h
    rw [show "%".toList = ['%'] from rfl]
    simp [List.isPrefixOf]
    exact fun hcc => hc hcc.symm

theorem againframe_not_comment (line : String) (h : isAgainframe line = true) :
    isCommentLine line = false :=
  not_comment_of_head line '\\' (prefix_head h rfl) (by decide)

theorem beginFrame_not_comment (line : String) (h : isBeginFrame line = true) :
    isCommentLine line = false :=
  not_comment_of_head line '\\' (prefix_head h rfl) (by decide)

theorem endFrame_not_comment (line : String) (h : isEndFrame line = true) :
    isCommentLine line = false :=
  not_comment_of_head line '\\' (prefix_head h rfl) (by decide)

theorem shorthand_not_comment (line : String) (h : isFrameShorthand line = true) :
    isCommentLine line = false :=
  not_comment_of_head line '\\' (prefix_head h rfl) (by decide)

theorem backScan_le (lines : List String) (b : Nat) : backScan lines b ≤ b := by
  induction b with
  | zero => exact le_refl 0
  | succ n ih =>
    rw [backScan]
    split
    · exact le_trans ih (Nat.le_succ n)
    · exact le_refl (n + 1)

theorem backScan_comments (lines : List String) (b : Nat) :
    ∀ j, backScan lines b ≤ j → j < b → isCommentLine (lines.getD j "") = true := by
  induction b with
  | zero => intro j h1 h2; omega
  | succ n ih =>
    intro j h1 h2
    rw [backScan] at h1
    by_cases hc : isCommentLine (lines.getD n "") = true
    · rw [if_pos hc] at h1
      rcases Nat.lt_succ_iff_lt_or_eq.mp h2 with h | h
      · exact ih j h1 h
      · subst h; exact hc
    · rw [if_neg hc] at h1
      omega

theorem backScan_stop (lines : List String) (b : Nat) : Good lines (backScan lines b) := by
  induction b with
  | zero => exact Or.inl rfl
  | succ n ih =>
    rw [backScan]
    split
    · exact ih
    · rename_i hc
      simp only [Bool.not_eq_true] at hc
      exact Or.inr (by simpa using hc)

theorem backScan_lb (lines : List String) (k : Nat) (hg : Good lines k) :
    ∀ b, k ≤ b → (∀ j, k ≤ j → j < b → isCommentLine (lines.getD j "") = true) →
    k ≤ backScan lines b := by
  intro b
  induction b with
  | zero => intro h _; simpa [backScan] using h
  | succ n ih =>
    intro hkb hc
    rw [backScan]
    split
    · rename_i hcomment
      by_cases hk : k ≤ n
      · exact ih hk (fun j h1 h2 => hc j h1 (h2.trans (Nat.lt_succ_self n)))
      · exfalso
        have hk1 : k = n + 1 := by omega
        rcases hg with h0 | hnc
        · omega
        · rw [hk1] at hnc
          simp only [Nat.add_sub_cancel] at hnc
          rw [hnc] at hcomment
          exact absurd hcomment (by simp)
    · exact hkb

theorem parse_aux_past_end (lines : List String) (fuel i : Nat) (h : lines.length ≤ i) :
    parse_frames_aux lines fuel i = [] := by
  cases fuel with
  | zero => rfl
  | succ fuel => rw [parse_frames_aux, if_neg (by omega)]

theorem findEnd_zero_depth (lines : List String) (fuel j : Nat) :
    findEnd lines fuel j 0 = j := by
  cases fuel with
  | zero => rfl
  | succ fuel => rw [findEnd, if_neg (by simp)]

theorem findEnd_endline (lines : List String) :
    ∀ fuel j (d : Int), j ≤ lines.length → lines.length - j ≤ fuel → 0 < d →
    (findEnd lines fuel j d = lines.length ∨
     (1 ≤ findEnd lines fuel j d ∧
       isEndFrame (lines.getD (findEnd lines fuel j d - 1) "") = true)) := by
  intro fuel
  induction fuel with
  | zero =>
    intro j d hj hfl hd
    left
    show j = lines.length
    omega
  | succ fuel ih =>
    intro j d hj hfl hd
    rw [findEnd]
    by_cases hcond : j < lines.length ∧ 0 < d
    · rw [if_pos hcond]
      by_cases hb : isBeginFrame (lines.getD j "") = true
      · rw [if_pos hb]
        exact ih (j + 1) (d + 1) hcond.1 (by omega) (by omega)
      · rw [if_neg hb]
        by_cases he : isEndFrame (lines.getD j "") = true
        · rw [if_pos he]
          by_cases hd1 : 0 < d - 1
          · exact ih (j + 1) (d - 1) hcond.1 (by omega) hd1
          · have hd0 : d - 1 = 0 := by omega
            rw [hd0, findEnd_zero_depth]
            right
            exact ⟨by omega, by simpa using he⟩
        · rw [if_neg he]
          exact ih (j + 1) d hcond.1 (by omega) hd
    · rw [if_neg hcond]
      left
      omega

/-- Every emitted span satisfies the structural invariant `FrameInv`. -/
theorem parse_aux_inv (lines : List String) :
    ∀ fuel i f, f ∈ parse_frames_aux lines fuel i → FrameInv lines f := by
  intro fuel
  induction fuel with
  | zero => intro i f hf; simp [parse_frames_aux] at hf
  | succ fuel ih =>
    intro i f hf
    rw [parse_frames_aux] at hf
    by_cases hi : i < lines.length
    · rw [if_pos hi] at hf
      by_cases ha : isAgainframe (lines.getD i "") = true
      · rw [if_pos ha] at hf
        exact ih _ f hf
      · rw [if_neg ha] at hf
        by_cases hb : isBeginFrame (lines.getD i "") = true
        · rw [if_pos hb] at hf
          rcases List.mem_cons.mp hf with h | h
          · subst h
            exact ⟨i, rfl, backScan_le lines i,
              Nat.lt_of_lt_of_le (Nat.lt_succ_self i) (findEnd_ge lines lines.length (i + 1) 1),
              findEnd_le lines lines.length (i + 1) 1 hi, hi, rfl, Or.inr ⟨hb, rfl⟩⟩
          · exact ih _ f h
        · rw [if_neg hb] at hf
          by_cases hs : isFrameShorthand (lines.getD i "") = true
          · rw [if_pos hs] at hf
            rcases List.mem_cons.mp hf with h | h
            · subst h
              exact ⟨i, rfl, backScan_le lines i, Nat.lt_succ_self i, hi, hi, rfl,
                Or.inl ⟨hs, rfl⟩⟩
            · exact ih _ f h
          · rw [if_neg hs] at hf
            exact ih _ f hf
    · rw [if_neg hi] at hf
      simp at hf

/-- Every span emitted from cursor position `i` starts at or after any
barrier `k ≤ i` from which only comment lines separate `k` from `i`. -/
theorem parse_aux_lb (lines : List String) :
    ∀ fuel i k, k ≤ i → Good lines k →
    (∀ j, k ≤ j → j < i → isCommentLine (lines.getD j "") = true) →
    ∀ f ∈ parse_frames_aux lines fuel i, k ≤ f.1 := by
  intro fuel
  induction fuel with
  | zero => intro i k _ _ _ f hf; simp [parse_frames_aux] at hf
  | succ fuel ih =>
    intro i k hki hg hc f hf
    rw [parse_frames_aux] at hf
    by_cases hi : i < lines.length
    · rw [if_pos hi] at hf
      by_cases ha : isAgainframe (lines.getD i "") = true
      · rw [if_pos ha] at hf
        have h2 := ih (i + 1) (i + 1) (le_refl _)
          (Or.inr (by simpa using againframe_not_comment _ ha)) (by omega) f hf
        omega
      · rw [if_neg ha] at hf
        by_cases hb : isBeginFrame (lines.getD i "") = true
        · rw [if_pos hb] at hf
          rcases List.mem_cons.mp hf with h | h
          · subst h
            exact backScan_lb lines k hg i hki hc
          · by_cases hel : findEnd lines lines.length (i + 1) 1 < lines.length
            · rcases findEnd_endline lines lines.length (i + 1) 1 hi (by omega) (by norm_num)
                with hlen | ⟨h1, hend⟩
              · omega
              · have h2 := ih _ _ (le_refl _)
                  (Or.inr (endFrame_not_comment _ hend)) (fun j hj1 hj2 => absurd hj1 (by omega))
                  f h
                have h3 := findEnd_ge lines lines.length (i + 1) 1
                omega
            · rw [parse_aux_past_end lines fuel _ (by omega)] at h
              simp at h
        · rw [if_neg hb] at hf
          by_cases hs : isFrameShorthand (lines.getD i "") = true
          · rw [if_pos hs] at hf
            rcases List.mem_cons.mp hf with h | h
            · subst h
              exact backScan_lb lines k hg i hki hc
            · have h2 := ih (i + 1) (i + 1) (le_refl _)
                (Or.inr (by simpa using shorthand_not_comment _ hs)) (by omega) f h
              omega
          · rw [if_neg hs] at hf
            by_cases hcom : isCommentLine (lines.getD i "") = true
            · exact ih (i + 1) k (by omega) hg
                (fun j hj1 hj2 => by
                  rcases Nat.lt_succ_iff_lt_or_eq.mp hj2 with h | h
                  · exact hc j hj1 h
                  · subst h; exact hcom) f hf
            · have h2 := ih (i + 1) (i + 1) (le_refl _)
                (Or.inr (by simpa using hcom)) (by omega) f hf
              omega
    · rw [if_neg hi] at hf
      simp at hf

/-- Emitted spans are in document order and non-overlapping: each span ends
at or before the next one starts. -/
theorem parse_aux_chain (lines : List String) :
    ∀ fuel i, List.Chain' (fun f g => f.2.1 ≤ g.1) (parse_frames_aux lines fuel i) := by
  intro fuel
  induction fuel with
  | zero => intro i; simp [parse_frames_aux]
  | succ fuel ih =>
    intro i
    rw [parse_frames_aux]
    by_cases hi : i < lines.length
    · rw [if_pos hi]
      by_cases ha : isAgainframe (lines.getD i "") = true
      · rw [if_pos ha]; exact ih (i + 1)
      · rw [if_neg ha]
        by_cases hb : isBeginFrame (lines.getD i "") = true
        · rw [if_pos hb]
          rw [List.chain'_cons']
          refine ⟨?_, ih _⟩
          intro g hg
          by_cases hel : findEnd lines lines.length (i + 1) 1 < lines.length
          · rcases findEnd_endline lines lines.length (i + 1) 1 hi (by omega) (by norm_num)
              with hlen | ⟨h1, hend⟩
            · omega
            · have hmem : g ∈ parse_frames_aux lines fuel (findEnd lines lines.length (i + 1) 1) :=
                List.mem_of_mem_head? hg
              exact parse_aux_lb lines fuel _ _ (le_refl _)
                (Or.inr (endFrame_not_comment _ hend))
                (fun j hj1 hj2 => absurd hj1 (by omega)) g hmem
          · rw [parse_aux_past_end lines fuel _ (by omega)] at hg
            simp at hg
        · rw [if_neg hb]
          by_cases hs : isFrameShorthand (lines.getD i "") = true
          · rw [if_pos hs]
            rw [List.chain'_cons']
            refine ⟨?_, ih _⟩
            intro g hg
            have hmem : g ∈ parse_frames_aux lines fuel (i + 1) := List.mem_of_mem_head? hg
            exact parse_aux_lb lines fuel (i + 1) (i + 1) (le_refl _)
              (Or.inr (by simpa using shorthand_not_comment _ hs)) (by omega) g hmem
          · rw [if_neg hs]; exact ih (i + 1)
    · rw [if_neg hi]
      simp

theorem sliceL_self {α : Type _} (l : List α) (j : Nat) : sliceL l j j = [] :=
  List.drop_eq_nil_of_le (by simp)

theorem sliceL_cons (l : List String) (j k : Nat) (hjk : j < k) (hj : j < l.length) :
    sliceL l j k = l.getD j "" :: sliceL l (j + 1) k := by
  rw [sliceL, sliceL]
  have h1 : j < (l.take k).length := by
    simp only [List.length_take]
    omega
  rw [List.drop_eq_getElem_cons h1]
  congr 1
  rw [List.getElem_take]
  exact (List.getD_eq_getElem l "" (by omega)).symm

theorem depthRun_same (lines : List String) (j : Nat) (d : Int) :
    depthRun lines j j d = d := by
  rw [depthRun, sliceL_self]
  rfl

theorem depthRun_cons (lines : List String) (j k : Nat) (d : Int) (hjk : j < k)
    (hj : j < lines.length) :
    depthRun lines j k d = depthRun lines (j + 1) k (stepDepth (lines.getD j "") d) := by
  rw [depthRun, sliceL_cons lines j k hjk hj, List.foldl_cons, depthRun]

/-- Characterization of the depth loop: strictly positive depth at every line
strictly inside the scanned region, and either the loop ran to the end of the
document or the depth is exactly zero at the returned end. -/
theorem findEnd_spec (lines : List String) :
    ∀ fuel j (d : Int), j ≤ lines.length → lines.length - j ≤ fuel → 0 < d →
    (∀ k, j ≤ k → k < findEnd lines fuel j d → 0 < depthRun lines j k d) ∧
    (findEnd lines fuel j d = lines.length ∨
      depthRun lines j (findEnd lines fuel j d) d = 0) := by
  intro fuel
  induction fuel with
  | zero =>
    intro j d hj hfl hd
    have he : findEnd lines 0 j d = j := rfl
    constructor
    · intro k h1 h2
      rw [he] at h2
      omega
    · left
      rw [he]
      omega
  | succ fuel ih =>
    intro j d hj hfl hd
    rw [findEnd]
    by_cases hcond : j < lines.length ∧ 0 < d
    · rw [if_pos hcond]
      by_cases hb : isBeginFrame (lines.getD j "") = true
      · rw [if_pos hb]
        have hstep : stepDepth (lines.getD j "") d = d + 1 := by rw [stepDepth, if_pos hb]
        obtain ⟨ih1, ih2⟩ := ih (j + 1) (d + 1) hcond.1 (by omega) (by omega)
        constructor
        · intro k h1 h2
          rcases Nat.eq_or_lt_of_le h1 with h1e | h1'
          · rw [← h1e, depthRun_same]
            exact hd
          · rw [depthRun_cons lines j k d h1' hcond.1, hstep]
            exact ih1 k h1' h2
        · rcases ih2 with h | h
          · exact Or.inl h
          · right
            rw [depthRun_cons lines j _ d
              (Nat.lt_of_lt_of_le (Nat.lt_succ_self j) (findEnd_ge lines fuel (j + 1) (d + 1)))
              hcond.1, hstep]
            exact h
      · rw [if_neg hb]
        by_cases he : isEndFrame (lines.getD j "") = true
        · rw [if_pos he]
          have hstep : stepDepth (lines.getD j "") d = d - 1 := by
            rw [stepDepth, if_neg hb, if_pos he]
          by_cases hd1 : 0 < d - 1
          · obtain ⟨ih1, ih2⟩ := ih (j + 1) (d - 1) hcond.1 (by omega) hd1
            constructor
            · intro k h1 h2
              rcases Nat.eq_or_lt_of_le h1 with h1e | h1'
              · rw [← h1e, depthRun_same]
                exact hd
              · rw [depthRun_cons lines j k d h1' hcond.1, hstep]
                exact ih1 k h1' h2
            · rcases ih2 with h | h
              · exact Or.inl h
              · right
                rw [depthRun_cons lines j _ d
                  (Nat.lt_of_lt_of_le (Nat.lt_succ_self j) (findEnd_ge lines fuel (j + 1) (d - 1)))
                  hcond.1, hstep]
                exact h
          · have hd0 : d - 1 = 0 := by omega
            rw [hd0, findEnd_zero_depth]
            constructor
            · intro k h1 h2
              have hkj : k = j := by omega
              rw [hkj, depthRun_same]
              exact hd
            · right
              rw [depthRun_cons lines j (j + 1) d (Nat.lt_succ_self j) hcond.1, hstep,
                depthRun_same]
              exact hd0
        · rw [if_neg he]
          have hstep : stepDepth (lines.getD j "") d = d := by
            rw [stepDepth, if_neg hb, if_neg he]
          obtain ⟨ih1, ih2⟩ := ih (j + 1) d hcond.1 (by omega) hd
          constructor
          · intro k h1 h2
            rcases Nat.eq_or_lt_of_le h1 with h1e | h1'
            · rw [← h1e, depthRun_same]
              exact hd
            · rw [depthRun_cons lines j k d h1' hcond.1, hstep]
              exact ih1 k h1' h2
          · rcases ih2 with h | h
            · exact Or.inl h
            · right
              rw [depthRun_cons lines j _ d
                (Nat.lt_of_lt_of_le (Nat.lt_succ_self j) (findEnd_ge lines fuel (j + 1) d))
                hcond.1, hstep]
              exact h
    · rw [if_neg hcond]
      constructor
      · intro k h1 h2
        omega
      · left
        omega

theorem parse_frames_inv (lines : List String) :
    ∀ f ∈ parse_frames lines, FrameInv lines f :=
  fun f hf => parse_aux_inv lines lines.length 0 f hf

theorem parse_frames_chain (lines : List String) :
    List.Chain' (fun f g => f.2.1 ≤ g.1) (parse_frames lines) :=
  parse_aux_chain lines lines.length 0

/-! ### Unfolding helpers for `move_frames` -/

theorem move_frames_inPlace (input_file : String) (lines : List String) (ps : List Int)
    (to_pos : Int) (output_file : Option String) (lookup : String → Option (List String))
    (copy_mode : Bool) (hsame : output_file = none ∨ output_file = some input_file)
    (hne : parse_frames lines ≠ [])
    (hval : firstInvalidFrom ps (parse_frames lines).length = none) :
    move_frames input_file lines ps to_pos output_file lookup copy_mode
      = inPlaceMove lines (parse_frames lines) ps to_pos input_file := by
  have hne' : (parse_frames lines).isEmpty = false := by
    simpa [List.isEmpty_iff] using hne
  rcases hsame with h | h <;> subst h <;>
    simp [move_frames, hne', hval]

theorem move_frames_cross (input_file : String) (lines : List String) (ps : List Int)
    (to_pos : Int) (out : String) (lookup : String → Option (List String)) (copy_mode : Bool)
    (hout : out ≠ input_file) (hne : parse_frames lines ≠ [])
    (hval : firstInvalidFrom ps (parse_frames lines).length = none) :
    move_frames input_file lines ps to_pos (some out) lookup copy_mode
      = crossFileMove input_file lines (parse_frames lines) ps to_pos out lookup copy_mode := by
  have hne' : (parse_frames lines).isEmpty = false := by
    simpa [List.isEmpty_iff] using hne
  simp [move_frames, hne', hval, hout]

theorem inPlaceMove_noop (lines : List String) (frames : List (Nat × Nat × List String))
    (p : Int) (dest : String) (h1 : 1 ≤ p) (h2 : p ≤ (frames.length : Int)) :
    inPlaceMove lines frames [p] p dest = .ok [] := by
  rw [inPlaceMove, if_neg (by omega), if_pos ⟨rfl, rfl⟩]

theorem inPlaceMove_to_out_of_range (lines : List String)
    (frames : List (Nat × Nat × List String)) (ps : List Int) (to_pos : Int) (dest : String)
    (h : to_pos < 1 ∨ (frames.length : Int) < to_pos) :
    inPlaceMove lines frames ps to_pos dest = .error (toRangeMsg to_pos frames.length) := by
  rw [inPlaceMove, if_pos h]

/-! ### Claim theorems -/

/-- C9: `parse_range` on a single numeric token `N` (one accepted by Python
`int`, no `-` inside) returns `[N]`; on `N-M` with `N ≤ M` it returns the
ascending contiguous list `[N, N+1, ..., M]` (`pyRange N M`, whose `k`-th
element is `N + k`); on `N-M` with `N > M` it fails with the
`Invalid range: start > end` format error; and on a non-numeric token it
fails with the `ValueError` of `int()` — in every failure case an error is
returned instead of a list. -/
theorem c9_parse_range_spec :
    (∀ (s : String) (n : Int), s.toList.contains '-' = false →
      pyIntList s.toList = some n → parse_range s = .ok [n]) ∧
    (∀ (s t : String) (m n : Int), s.toList.contains '-' = false →
      t.toList.contains '-' = false → pyIntList s.toList = some m →
      pyIntList t.toList = some n → m ≤ n →
      parse_range (s ++ "-" ++ t) = .ok (pyRange m n)) ∧
    (∀ (s t : String) (m n : Int), s.toList.contains '-' = false →
      t.toList.contains '-' = false → pyIntList s.toList = some m →
      pyIntList t.toList = some n → n < m →
      parse_range (s ++ "-" ++ t) = .error s!"Invalid range: start ({m}) > end ({n})") ∧
    (∀ (s : String), s.toList.contains '-' = false → pyIntList s.toList = none →
      parse_range s = .error (invalidLiteralMsg s.toList)) ∧
    (∀ (m n : Int) (k : Nat) (h : k < (pyRange m n).length),
      (pyRange m n).length = (n + 1 - m).toNat ∧ (pyRange m n).get ⟨k, h⟩ = m + k) := by
  have hsplit : ∀ (s t : String), s.toList.contains '-' = false →
      t.toList.contains '-' = false →
      pySplit '-' (s ++ "-" ++ t).toList = [s.toList, t.toList] := by
    intro s t hs ht
    have hs' : ('-' : Char) ∉ s.toList := by simpa using hs
    have ht' : ('-' : Char) ∉ t.toList := by simpa using ht
    have hl : (s ++ "-" ++ t).toList = s.toList ++ '-' :: t.toList := by
      have : (s ++ "-" ++ t).toList = (s.toList ++ ['-']) ++ t.toList := rfl
      simp [this]
    rw [hl, pySplit_sep _ _ _ hs', pySplit_no_sep _ _ ht']
  have hcont : ∀ (s t : String), (s ++ "-" ++ t).toList.contains '-' = true := by
    intro s t
    have hl : (s ++ "-" ++ t).toList = (s.toList ++ ['-']) ++ t.toList := rfl
    simp [hl]
  refine ⟨?_, ?_, ?_, ?_, ?_⟩
  · intro s n h1 h2
    have h1' : ('-' : Char) ∉ s.data := by simpa using h1
    have h2' : pyIntList s.data = some n := h2
    simp [parse_range, h1', h2']
  · intro s t m n hs ht hm hn hmn
    simp only [parse_range, hcont s t, if_true, hsplit s t hs ht, hm, hn]
    rw [if_neg (by omega)]
  · intro s t m n hs ht hm hn hmn
    simp only [parse_range, hcont s t, if_true, hsplit s t hs ht, hm, hn]
    rw [if_pos (by omega)]
  · intro s h1 h2
    have h1' : ('-' : Char) ∉ s.data := by simpa using h1
    have h2' : pyIntList s.data = none := h2
    simp [parse_range, h1', h2']
  · intro m n k h
    exact ⟨pyRange_length m n, pyRange_get m n k h⟩

/-- Witness for C9 at concrete tokens. -/
theorem c9_witness :
    parse_range "7" = .ok [7] ∧
    parse_range "3-5" = .ok [3, 4, 5] ∧
    parse_range "5-3" = .error "Invalid range: start (5) > end (3)" ∧
    parse_range "abc" = .error "invalid literal for int() with base 10: abc" := by
  refine ⟨c9_parse_range_spec.1 "7" 7 (by decide) (by decide), ?_, ?_, ?_⟩
  · have h := c9_parse_range_spec.2.1 "3" "5" 3 5 (by decide) (by decide) (by decide)
      (by decide) (by decide)
    rw [show ("3" ++ "-" ++ "5" : String) = "3-5" from rfl] at h
    rw [h]
    exact congrArg Except.ok (by decide)
  · have h := c9_parse_range_spec.2.2.1 "5" "3" 5 3 (by decide) (by decide) (by decide)
      (by decide) (by decide)
    rw [show ("5" ++ "-" ++ "3" : String) = "5-3" from rfl] at h
    rw [h]
    exact congrArg Except.error (by decide)
  · have h := c9_parse_range_spec.2.2.2.1 "abc" (by decide) (by decide)
    rw [h]
    exact congrArg Except.error (by decide)

/-- C6: a same-file move (`-o` absent or naming the input file) of a single
block whose destination position equals its current position performs no
mutation and reports success without writing: the result is `.ok []` — a
successful exit with an empty write list, so the document's bytes are
untouched. -/
theorem c6_noop_same_position (input_file : String) (lines : List String) (p : Int)
    (output_file : Option String) (lookup : String → Option (List String)) (copy_mode : Bool)
    (hsame : output_file = none ∨ output_file = some input_file)
    (hne : parse_frames lines ≠ [])
    (h1 : 1 ≤ p) (h2 : p ≤ ((parse_frames lines).length : Int)) :
    move_frames input_file lines [p] p output_file lookup copy_mode = .ok [] := by
  have hval : firstInvalidFrom [p] (parse_frames lines).length = none := by
    simp only [firstInvalidFrom, List.find?]
    rw [decide_eq_false (by omega)]
  rw [move_frames_inPlace input_file lines [p] p output_file lookup copy_mode hsame hne hval]
  exact inPlaceMove_noop lines (parse_frames lines) p input_file h1 h2

/-- Witness for C6: moving the single block 2 of a two-block document to
position 2 writes nothing. -/
theorem c6_witness :
    move_frames "a.tex"
      ["\\begin{frame}{A}", "\\end{frame}", "\\begin{frame}{B}", "\\end{frame}"]
      [2] 2 none (fun _ => none) false = .ok [] :=
  c6_noop_same_position "a.tex"
    ["\\begin{frame}{A}", "\\end{frame}", "\\begin{frame}{B}", "\\end{frame}"]
    2 none (fun _ => none) false (Or.inl rfl) (by decide) (by decide) (by decide)

/-- C3 counterexample: on a one-block document, the same-file move of block 1
to destination position `|index| + 1 = 2` (which is not a removed position,
since only position 1 is removed) is rejected with the `--to ... out of
range` error — it is not accepted and performed as an append, so the claim
as stated is false. -/
theorem c3_counterexample :
    move_frames "a.tex" ["\\begin{frame}{A}", "\\end{frame}"] [1] 2 none
      (fun _ => none) false = .error "Error: --to 2 is out of range (1-1)" := rfl

/-- C3 amended: a same-file move whose destination position equals
`|index| + 1` is always rejected as out of range (the in-place branch of
`move_frames` only accepts `1 ≤ to_pos ≤ |index|`); `dest = |index| + 1` is
accepted only by the cross-file branch. -/
theorem c3_same_file_append_rejected (input_file : String) (lines : List String)
    (ps : List Int) (output_file : Option String) (lookup : String → Option (List String))
    (copy_mode : Bool) (hsame : output_file = none ∨ output_file = some input_file)
    (hne : parse_frames lines ≠ [])
    (hval : firstInvalidFrom ps (parse_frames lines).length = none) :
    move_frames input_file lines ps (((parse_frames lines).length : Int) + 1)
        output_file lookup copy_mode
      = .error (toRangeMsg (((parse_frames lines).length : Int) + 1)
          (parse_frames lines).length) := by
  rw [move_frames_inPlace input_file lines ps _ output_file lookup copy_mode hsame hne hval]
  exact inPlaceMove_to_out_of_range lines (parse_frames lines) ps _ input_file (by omega)

/-- Witness for C3's amended theorem: a two-block document rejects a
same-file move of block 1 to position 3. -/
theorem c3_witness :
    move_frames "a.tex"
      ["\\begin{frame}{A}", "\\end{frame}", "\\begin{frame}{B}", "\\end{frame}"]
      [1] 3 none (fun _ => none) false = .error "Error: --to 3 is out of range (1-2)" := by
  have h := c3_same_file_append_rejected "a.tex"
    ["\\begin{frame}{A}", "\\end{frame}", "\\begin{frame}{B}", "\\end{frame}"]
    [1] none (fun _ => none) false (Or.inl rfl) (by decide) (by decide)
  exact h.trans (congrArg Except.error (by decide))

/-- C2 counterexample: copying the single block of `a.tex` to position 1 of
`b.tex`, whose text is the single non-block line `hello` (so its Block Index
is empty), inserts the block at the end of `b.tex` — after `hello` — not at
line offset 0 (the top of the document) as the claim states. -/
theorem c2_counterexample :
    move_frames "a.tex" ["\\begin{frame}{A}", "\\end{frame}"] [1] 1 (some "b.tex")
        (fun p => if p = "b.tex" then some ["hello"] else none) true
      = .ok [("b.tex", ["hello", "\\begin{frame}{A}", "\\end{frame}"])] ∧
    (["hello", "\\begin{frame}{A}", "\\end{frame}"] : List String) ≠
      ["\\begin{frame}{A}", "\\end{frame}", "hello"] :=
  ⟨rfl, by decide⟩

/-- C2 amended: for a validated cross-file move or copy the text is inserted
at line offset `crossInsertAt`, which equals the start of the destination
span at `dest` when `dest ≤ N`, the end of the last destination span when
`dest = N + 1` and the destination has blocks, and the number of lines of
the destination document (the end of the document, not offset 0) when the
destination currently has no blocks. -/
theorem c2_cross_file_insert_offset (input_file out : String)
    (lines dest_lines : List String) (ps : List Int) (to_pos : Int)
    (lookup : String → Option (List String)) (copy_mode : Bool)
    (hout : out ≠ input_file) (hlk : lookup out = some dest_lines)
    (hne : parse_frames lines ≠ [])
    (hval : firstInvalidFrom ps (parse_frames lines).length = none)
    (hto1 : 1 ≤ to_pos) (hto2 : to_pos ≤ ((parse_frames dest_lines).length : Int) + 1) :
    move_frames input_file lines ps to_pos (some out) lookup copy_mode
      = .ok ((out,
            dest_lines.take (crossInsertAt (parse_frames dest_lines) dest_lines to_pos)
              ++ combinedFrameLines (parse_frames lines) ps
              ++ dest_lines.drop (crossInsertAt (parse_frames dest_lines) dest_lines to_pos)) ::
          (if copy_mode then []
           else [(input_file, removeFrames (parse_frames lines) ps lines)])) ∧
    (to_pos ≤ ((parse_frames dest_lines).length : Int) →
      crossInsertAt (parse_frames dest_lines) dest_lines to_pos
        = spanStartOf (parse_frames dest_lines) to_pos) ∧
    (∀ f, (parse_frames dest_lines).getLast? = some f →
      ((parse_frames dest_lines).length : Int) < to_pos →
      crossInsertAt (parse_frames dest_lines) dest_lines to_pos = f.2.1) ∧
    (parse_frames dest_lines = [] →
      crossInsertAt (parse_frames dest_lines) dest_lines to_pos = dest_lines.length) := by
  refine ⟨?_, ?_, ?_, ?_⟩
  · rw [move_frames_cross input_file lines ps to_pos out lookup copy_mode hout hne hval]
    simp only [crossFileMove, hlk]
    rw [if_neg (by omega)]
    cases copy_mode <;> simp
  · intro h
    rw [crossInsertAt, if_pos h]
  · intro f hf hlt
    rw [crossInsertAt, if_neg (by omega), hf]
  · intro h
    rw [crossInsertAt, if_neg (by rw [h]; simp; omega)]
    rw [h]
    simp

/-- Witness for C2's amended theorem: the destination `b.tex` consists of the
single non-block line `hello`; the insertion offset is 1 — the end of the
destination document — and the copied block lands after `hello`. -/
theorem c2_witness :
    crossInsertAt (parse_frames ["hello"]) ["hello"] 1 = 1 ∧
    move_frames "a.tex" ["\\begin{frame}{A}", "\\end{frame}"] [1] 1 (some "b.tex")
        (fun p => if p = "b.tex" then some ["hello"] else none) true
      = .ok [("b.tex", ["hello", "\\begin{frame}{A}", "\\end{frame}"])] := by
  have h := c2_cross_file_insert_offset "a.tex" "b.tex"
    ["\\begin{frame}{A}", "\\end{frame}"] ["hello"] [1] 1
    (fun p => if p = "b.tex" then some ["hello"] else none) true
    (by decide) (by simp) (by decide) (by decide) (by decide) (by decide)
  exact ⟨(h.2.2.2 (by decide)).trans rfl, h.1.trans rfl⟩

/-- C10: a validated cross-file copy writes only the destination file: the
write list is exactly `[(out, w)]` for the new destination content, so the
source document is never written and keeps its prior bytes. -/
theorem c10_cross_copy_source_not_written (input_file out : String)
    (lines dest_lines : List String) (ps : List Int) (to_pos : Int)
    (lookup : String → Option (List String))
    (hout : out ≠ input_file) (hlk : lookup out = some dest_lines)
    (hne : parse_frames lines ≠ [])
    (hval : firstInvalidFrom ps (parse_frames lines).length = none)
    (hto : ¬(to_pos < 1 ∨ ((parse_frames dest_lines).length : Int) + 1 < to_pos)) :
    ∃ w, move_frames input_file lines ps to_pos (some out) lookup true = .ok [(out, w)] := by
  rw [move_frames_cross input_file lines ps to_pos out lookup true hout hne hval]
  simp only [crossFileMove, hlk]
  rw [if_neg hto]
  exact ⟨_, rfl⟩

/-- Witness for C10: copying block 2 of a three-block `a.tex` to position 1
of a two-block `b.tex` writes `b.tex` only. -/
theorem c10_witness :
    ∃ w, move_frames "a.tex"
        ["\\begin{frame}{A}", "\\end{frame}", "\\begin{frame}{B}", "\\end{frame}",
         "\\begin{frame}{C}", "\\end{frame}"] [2] 1 (some "b.tex")
        (fun p => if p = "b.tex" then
          some ["\\begin{frame}{X}", "\\end{frame}", "\\begin{frame}{Y}", "\\end{frame}"]
          else none) true = .ok [("b.tex", w)] :=
  c10_cross_copy_source_not_written "a.tex" "b.tex"
    ["\\begin{frame}{A}", "\\end{frame}", "\\begin{frame}{B}", "\\end{frame}",
     "\\begin{frame}{C}", "\\end{frame}"]
    ["\\begin{frame}{X}", "\\end{frame}", "\\begin{frame}{Y}", "\\end{frame}"]
    [2] 1 (fun p => if p = "b.tex" then
      some ["\\begin{frame}{X}", "\\end{frame}", "\\begin{frame}{Y}", "\\end{frame}"]
      else none) (by decide) (by simp) (by decide) (by decide) (by decide)

/-- C1 (exhibit of the code bug): the document has blocks A (span `[0,2)`),
B (span `[3,5)`, separated from A by a blank line) and C (span `[5,7)`).
Moving the contiguous validated range 1-2 to destination position 1 should,
per the claim, relocate the single contiguous run `lines[0:5)` — including
the blank separator line — to the insertion point, which here reproduces the
original document byte for byte.  The code instead removes the run but
re-inserts only the concatenated block span texts, so the blank line between
the selected blocks vanishes: the document shrinks from 7 lines to 6. -/
theorem c1_gap_line_lost :
    move_frames "a.tex"
        ["\\begin{frame}{A}", "\\end{frame}", "", "\\begin{frame}{B}", "\\end{frame}",
         "\\begin{frame}{C}", "\\end{frame}"] [1, 2] 1 none (fun _ => none) false
      = .ok [("a.tex",
          ["\\begin{frame}{A}", "\\end{frame}", "\\begin{frame}{B}", "\\end{frame}",
           "\\begin{frame}{C}", "\\end{frame}"])] ∧
    (["\\begin{frame}{A}", "\\end{frame}", "\\begin{frame}{B}", "\\end{frame}",
      "\\begin{frame}{C}", "\\end{frame}"] : List String) ≠
      ["\\begin{frame}{A}", "\\end{frame}", "", "\\begin{frame}{B}", "\\end{frame}",
       "\\begin{frame}{C}", "\\end{frame}"] :=
  ⟨rfl, by decide⟩

/-- C4: every validation failure is reported with its specific message and
produces no write.  In this embedding an `.error` result is exactly the
"print to stderr and `sys.exit(1)` before any `write_text`" path of the
source, so each conjunct shows both the message and that no document is
mutated.  The conjuncts cover, for the move and delete entry points: a
malformed `--from` token (the `ValueError` text of `parse_range`, which names
the offending token or bounds), an empty block index (message naming the
file), a source position outside `[1, N]` (message naming the offending
position and the bound `N`, and the final conjunct shows the reported
position really is an offending member of the request), a missing
destination document (message naming it), a cross-file `--to` outside
`[1, N_dest + 1]`, and a same-file `--to` outside `[1, N]`. -/
theorem c4_validation_failures_no_write :
    (∀ (input : String) (lines : List String) (from_str : String) (to_pos : Int)
      (out : Option String) (lookup : String → Option (List String)) (cm : Bool) (e : String),
      parse_range from_str = .error e →
      run_move input lines from_str to_pos out lookup cm = .error s!"Error: {e}") ∧
    (∀ (input : String) (lines : List String) (from_str e : String),
      parse_range from_str = .error e →
      run_delete input lines from_str = .error s!"Error: {e}") ∧
    (∀ (input : String) (lines : List String) (ps : List Int) (to_pos : Int)
      (out : Option String) (lookup : String → Option (List String)) (cm : Bool),
      parse_frames lines = [] →
      move_frames input lines ps to_pos out lookup cm = .error (noFramesMsg input)) ∧
    (∀ (input : String) (lines : List String) (ps : List Int),
      parse_frames lines = [] → delete_frames input lines ps = .error (noFramesMsg input)) ∧
    (∀ (input : String) (lines : List String) (ps : List Int) (to_pos : Int)
      (out : Option String) (lookup : String → Option (List String)) (cm : Bool) (q : Int),
      parse_frames lines ≠ [] → firstInvalidFrom ps (parse_frames lines).length = some q →
      move_frames input lines ps to_pos out lookup cm
        = .error (fromRangeMsg q (parse_frames lines).length)) ∧
    (∀ (input : String) (lines : List String) (ps : List Int) (q : Int),
      parse_frames lines ≠ [] → firstInvalidFrom ps (parse_frames lines).length = some q →
      delete_frames input lines ps = .error (fromRangeMsg q (parse_frames lines).length)) ∧
    (∀ (input out : String) (lines : List String) (ps : List Int) (to_pos : Int)
      (lookup : String → Option (List String)) (cm : Bool),
      out ≠ input → parse_frames lines ≠ [] →
      firstInvalidFrom ps (parse_frames lines).length = none → lookup out = none →
      move_frames input lines ps to_pos (some out) lookup cm = .error (noOutputMsg out)) ∧
    (∀ (input out : String) (lines dest_lines : List String) (ps : List Int) (to_pos : Int)
      (lookup : String → Option (List String)) (cm : Bool),
      out ≠ input → parse_frames lines ≠ [] →
      firstInvalidFrom ps (parse_frames lines).length = none → lookup out = some dest_lines →
      (to_pos < 1 ∨ ((parse_frames dest_lines).length : Int) + 1 < to_pos) →
      move_frames input lines ps to_pos (some out) lookup cm
        = .error (toRangeMsg to_pos ((parse_frames dest_lines).length + 1))) ∧
    (∀ (input : String) (lines : List String) (ps : List Int) (to_pos : Int)
      (out : Option String) (lookup : String → Option (List String)) (cm : Bool),
      (out = none ∨ out = some input) → parse_frames lines ≠ [] →
      firstInvalidFrom ps (parse_frames lines).length = none →
      (to_pos < 1 ∨ ((parse_frames lines).length : Int) < to_pos) →
      move_frames input lines ps to_pos out lookup cm
        = .error (toRangeMsg to_pos (parse_frames lines).length)) ∧
    (∀ (ps : List Int) (n : Nat) (q : Int), firstInvalidFrom ps n = some q →
      q ∈ ps ∧ (q < 1 ∨ (n : Int) < q)) := by
  refine ⟨?_, ?_, ?_, ?_, ?_, ?_, ?_, ?_, ?_, ?_⟩
  · intro input lines from_str to_pos out lookup cm e h
    rw [run_move, h]
  · intro input lines from_str e h
    rw [run_delete, h]
  · intro input lines ps to_pos out lookup cm h
    simp [move_frames, h]
  · intro input lines ps h
    simp [delete_frames, h]
  · intro input lines ps to_pos out lookup cm q hne hq
    have hne' : (parse_frames lines).isEmpty = false := by
      simpa [List.isEmpty_iff] using hne
    simp [move_frames, hne', hq]
  · intro input lines ps q hne hq
    have hne' : (parse_frames lines).isEmpty = false := by
      simpa [List.isEmpty_iff] using hne
    simp [delete_frames, hne', hq]
  · intro input out lines ps to_pos lookup cm hout hne hval hlk
    rw [move_frames_cross input lines ps to_pos out lookup cm hout hne hval]
    simp [crossFileMove, hlk]
  · intro input out lines dest_lines ps to_pos lookup cm hout hne hval hlk hto
    rw [move_frames_cross input lines ps to_pos out lookup cm hout hne hval]
    simp only [crossFileMove, hlk]
    rw [if_pos hto]
  · intro input lines ps to_pos out lookup cm hsame hne hval hto
    rw [move_frames_inPlace input lines ps to_pos out lookup cm hsame hne hval]
    exact inPlaceMove_to_out_of_range lines (parse_frames lines) ps to_pos input hto
  · intro ps n q h
    have hmem := List.mem_of_find?_eq_some h
    have hp := List.find?_some h
    exact ⟨hmem, by simpa using hp⟩

/-- Witness for C4: each validation failure at a concrete input, with its
message; the error results carry an empty write list by construction. -/
theorem c4_witness :
    run_move "a.tex" ["\\begin{frame}{A}", "\\end{frame}"] "5-3" 1 none (fun _ => none) false
      = .error "Error: Invalid range: start (5) > end (3)" ∧
    run_delete "a.tex" ["\\begin{frame}{A}", "\\end{frame}"] "x7"
      = .error "Error: invalid literal for int() with base 10: x7" ∧
    move_frames "a.tex" ["no frames here"] [1] 1 none (fun _ => none) false
      = .error "Error: No frames found in a.tex" ∧
    delete_frames "a.tex" ["no frames here"] [1]
      = .error "Error: No frames found in a.tex" ∧
    move_frames "a.tex" ["\\begin{frame}{A}", "\\end{frame}"] [3] 1 none (fun _ => none) false
      = .error "Error: --from 3 is out of range (1-1)" ∧
    delete_frames "a.tex" ["\\begin{frame}{A}", "\\end{frame}"] [0]
      = .error "Error: --from 0 is out of range (1-1)" ∧
    move_frames "a.tex" ["\\begin{frame}{A}", "\\end{frame}"] [1] 1 (some "b.tex")
      (fun _ => none) false = .error "Error: Output file b.tex does not exist" ∧
    move_frames "a.tex" ["\\begin{frame}{A}", "\\end{frame}"] [1] 3 (some "b.tex")
      (fun p => if p = "b.tex" then some ["hello"] else none) false
      = .error "Error: --to 3 is out of range (1-1)" ∧
    move_frames "a.tex" ["\\begin{frame}{A}", "\\end{frame}"] [1] 0 none (fun _ => none) false
      = .error "Error: --to 0 is out of range (1-1)" ∧
    (3 : Int) ∈ [(3 : Int)] ∧ ((3 : Int) < 1 ∨ (1 : Int) < 3) := by
  have h1 := c4_validation_failures_no_write.1 "a.tex"
    ["\\begin{frame}{A}", "\\end{frame}"] "5-3" 1 none (fun _ => none) false
    "Invalid range: start (5) > end (3)" rfl
  have h2 := c4_validation_failures_no_write.2.1 "a.tex"
    ["\\begin{frame}{A}", "\\end{frame}"] "x7"
    "invalid literal for int() with base 10: x7" rfl
  have h3 := c4_validation_failures_no_write.2.2.1 "a.tex" ["no frames here"] [1] 1 none
    (fun _ => none) false rfl
  have h4 := c4_validation_failures_no_write.2.2.2.1 "a.tex" ["no frames here"] [1] rfl
  have h5 := c4_validation_failures_no_write.2.2.2.2.1 "a.tex"
    ["\\begin{frame}{A}", "\\end{frame}"] [3] 1 none (fun _ => none) false 3
    (by decide) rfl
  have h6 := c4_validation_failures_no_write.2.2.2.2.2.1 "a.tex"
    ["\\begin{frame}{A}", "\\end{frame}"] [0] 0 (by decide) rfl
  have h7 := c4_validation_failures_no_write.2.2.2.2.2.2.1 "a.tex" "b.tex"
    ["\\begin{frame}{A}", "\\end{frame}"] [1] 1 (fun _ => none) false
    (by decide) (by decide) rfl rfl
  have h8 := c4_validation_failures_no_write.2.2.2.2.2.2.2.1 "a.tex" "b.tex"
    ["\\begin{frame}{A}", "\\end{frame}"] ["hello"] [1] 3
    (fun p => if p = "b.tex" then some ["hello"] else none) false
    (by decide) (by decide) rfl rfl (by decide)
  have h9 := c4_validation_failures_no_write.2.2.2.2.2.2.2.2.1 "a.tex"
    ["\\begin{frame}{A}", "\\end{frame}"] [1] 0 none (fun _ => none) false
    (Or.inl rfl) (by decide) rfl (by decide)
  have h10 := c4_validation_failures_no_write.2.2.2.2.2.2.2.2.2 [(3 : Int)] 1 3 rfl
  exact ⟨h1.trans (congrArg Except.error (by decide)),
    h2.trans (congrArg Except.error (by decide)),
    h3.trans (congrArg Except.error (by decide)),
    h4.trans (congrArg Except.error (by decide)),
    h5.trans (congrArg Except.error (by decide)),
    h6.trans (congrArg Except.error (by decide)),
    h7.trans (congrArg Except.error (by decide)),
    h8.trans (congrArg Except.error (by decide)),
    h9.trans (congrArg Except.error (by decide)), h10.1, h10.2⟩

/-- C7: every span `f` of the Block Index has a marker line `b` (a
`\begin{frame}` line or a single-line `\frame{...}` shorthand) such that all
lines of the span strictly before `b` are comment lines, and the line just
above the span start is not a comment line (or the span starts at the top).
So a block absorbs exactly its contiguous immediately-preceding comment
lines — they are deleted and moved with it, since every operation acts on
whole spans — while any comment line separated from the block by a blank
line (a blank line is not a comment line) lies above the span start and is
left behind. -/
theorem c7_comment_absorption (lines : List String) (f : Nat × Nat × List String)
    (hf : f ∈ parse_frames lines) :
    ∃ b, f.1 ≤ b ∧ b < f.2.1 ∧
      (∀ j, f.1 ≤ j → j < b → isCommentLine (lines.getD j "") = true) ∧
      (f.1 = 0 ∨ isCommentLine (lines.getD (f.1 - 1) "") = false) ∧
      (isBeginFrame (lines.getD b "") = true ∨ isFrameShorthand (lines.getD b "") = true) := by
  obtain ⟨b, hs, hsb, hbe, helen, hblen, ht, hdisj⟩ := parse_frames_inv lines f hf
  refine ⟨b, hsb, hbe, ?_, ?_, ?_⟩
  · intro j h1 h2
    exact backScan_comments lines b j (by rw [← hs]; exact h1) h2
  · have h2 := backScan_stop lines b
    rw [← hs] at h2
    exact h2
  · rcases hdisj with ⟨h, _⟩ | ⟨h, _⟩
    · exact Or.inr h
    · exact Or.inl h

/-- Witness for C7: in a document whose block is preceded by two contiguous
comment lines, with a further comment line separated by a blank line, the
span starts at the first contiguous comment (index 2), every line between
span start and the marker is a comment, and line 1 (the blank) is not a
comment, so the far comment at index 0 is left outside the span. -/
theorem c7_witness :
    ∃ b, (2 : Nat) ≤ b ∧ b < 6 ∧
      (∀ j, 2 ≤ j → j < b →
        isCommentLine ((["% far", "", "% near", "% near2", "\\begin{frame}{T}",
          "\\end{frame}"] : List String).getD j "") = true) ∧
      ((2 : Nat) = 0 ∨
        isCommentLine ((["% far", "", "% near", "% near2", "\\begin{frame}{T}",
          "\\end{frame}"] : List String).getD (2 - 1) "") = false) ∧
      (isBeginFrame ((["% far", "", "% near", "% near2", "\\begin{frame}{T}",
          "\\end{frame}"] : List String).getD b "") = true ∨
        isFrameShorthand ((["% far", "", "% near", "% near2", "\\begin{frame}{T}",
          "\\end{frame}"] : List String).getD b "") = true) :=
  c7_comment_absorption
    ["% far", "", "% near", "% near2", "\\begin{frame}{T}", "\\end{frame}"]
    (2, 6, ["% near", "% near2", "\\begin{frame}{T}", "\\end{frame}"]) (by decide)

/-- C8: the spans of the Block Index are in document order and
non-overlapping (each ends at or before the next starts — so nothing inside
one span, in particular a nested `\begin{frame}`/`\end{frame}` pair, yields
a second span), and every span is either a one-line shorthand or a
begin/end span inside which the nesting depth stays strictly positive,
ending only where the depth returns to zero or at the end of the document:
the nested pair raises the depth to 2 and back to 1, so only the matching
outer `\end{frame}` closes the span, which therefore covers the whole outer
extent. -/
theorem c8_nested_single_span (lines : List String) (f : Nat × Nat × List String)
    (hf : f ∈ parse_frames lines) :
    List.Chain' (fun p q => p.2.1 ≤ q.1) (parse_frames lines) ∧
    f.1 < f.2.1 ∧ f.2.1 ≤ lines.length ∧
    (∃ b, f.1 ≤ b ∧ b < f.2.1 ∧
      ((isFrameShorthand (lines.getD b "") = true ∧ f.2.1 = b + 1) ∨
       (isBeginFrame (lines.getD b "") = true ∧
         (∀ k, b + 1 ≤ k → k < f.2.1 → 0 < depthRun lines (b + 1) k 1) ∧
         (f.2.1 = lines.length ∨ depthRun lines (b + 1) f.2.1 1 = 0)))) := by
  obtain ⟨b, hs, hsb, hbe, helen, hblen, ht, hdisj⟩ := parse_frames_inv lines f hf
  refine ⟨parse_frames_chain lines, lt_of_le_of_lt hsb hbe, helen, b, hsb, hbe, ?_⟩
  rcases hdisj with ⟨h1, h2⟩ | ⟨h1, h2⟩
  · exact Or.inl ⟨h1, h2⟩
  · right
    obtain ⟨hsp1, hsp2⟩ := findEnd_spec lines lines.length (b + 1) 1 (by omega) (by omega)
      (by norm_num)
    rw [← h2] at hsp1 hsp2
    exact ⟨h1, fun k hk1 hk2 => hsp1 k hk1 hk2, hsp2⟩

/-- Witness for C8: a block containing a nested begin/end pair of the same
marker type parses as the single span `[0, 6)`; the depth stays positive
strictly inside it and returns to zero exactly at its end. -/
theorem c8_witness :
    List.Chain' (fun p q => p.2.1 ≤ q.1)
      (parse_frames ["\\begin{frame}{Outer}", "\\begin{frame}", "inner", "\\end{frame}",
        "tail", "\\end{frame}", "x"]) ∧
    (0 : Nat) < 6 ∧ (6 : Nat) ≤ 7 ∧
    (∃ b, (0 : Nat) ≤ b ∧ b < 6 ∧
      ((isFrameShorthand ((["\\begin{frame}{Outer}", "\\begin{frame}", "inner",
          "\\end{frame}", "tail", "\\end{frame}", "x"] : List String).getD b "") = true ∧
          (6 : Nat) = b + 1) ∨
       (isBeginFrame ((["\\begin{frame}{Outer}", "\\begin{frame}", "inner",
          "\\end{frame}", "tail", "\\end{frame}", "x"] : List String).getD b "") = true ∧
         (∀ k, b + 1 ≤ k → k < 6 →
           0 < depthRun ["\\begin{frame}{Outer}", "\\begin{frame}", "inner",
             "\\end{frame}", "tail", "\\end{frame}", "x"] (b + 1) k 1) ∧
         ((6 : Nat) = 7 ∨ depthRun ["\\begin{frame}{Outer}", "\\begin{frame}", "inner",
             "\\end{frame}", "tail", "\\end{frame}", "x"] (b + 1) 6 1 = 0)))) := by
  have h := c8_nested_single_span
    ["\\begin{frame}{Outer}", "\\begin{frame}", "inner", "\\end{frame}", "tail",
      "\\end{frame}", "x"]
    (0, 6, ["\\begin{frame}{Outer}", "\\begin{frame}", "inner", "\\end{frame}", "tail",
      "\\end{frame}"]) (by decide)
  exact h

/-- C5: for every document whose Block Index is exactly `[fA, fB, fC, fD]`
(positions 1-4), the same-file move of position 1 to position 3 succeeds and
writes the document consisting of: the prefix before block A's span, then the
text from A's span end to D's span start (which contains the spans of B and C
and all surrounding non-block text, unchanged), then A's span, then
everything from D's span start on (D's span and the suffix).  Block A's span
therefore now sits after C's span and before D's span: the recomputed Block
Index order is `[B, C, A, D]` (the witness checks the recomputed order
explicitly). -/
theorem c5_move_first_to_third (input_file : String) (lines : List String)
    (lookup : String → Option (List String)) (copy_mode : Bool)
    (output_file : Option String)
    (hsame : output_file = none ∨ output_file = some input_file)
    (fA fB fC fD : Nat × Nat × List String)
    (h : parse_frames lines = [fA, fB, fC, fD]) :
    move_frames input_file lines [1] 3 output_file lookup copy_mode
      = .ok [(input_file,
          lines.take fA.1 ++ sliceL lines fA.2.1 fD.1 ++ sliceL lines fA.1 fA.2.1 ++
            lines.drop fD.1)] := by
  have hmA : fA ∈ parse_frames lines := by rw [h]; simp
  have hmB : fB ∈ parse_frames lines := by rw [h]; simp
  have hmC : fC ∈ parse_frames lines := by rw [h]; simp
  have hmD : fD ∈ parse_frames lines := by rw [h]; simp
  obtain ⟨bA, hsA, hsbA, hbeA, heLA, -, htA, -⟩ := parse_frames_inv lines fA hmA
  obtain ⟨bB, -, hsbB, hbeB, -, -, -, -⟩ := parse_frames_inv lines fB hmB
  obtain ⟨bC, -, hsbC, hbeC, -, -, -, -⟩ := parse_frames_inv lines fC hmC
  obtain ⟨bD, -, hsbD, hbeD, heLD, -, -, -⟩ := parse_frames_inv lines fD hmD
  have hch := parse_frames_chain lines
  rw [h] at hch
  simp only [List.chain'_cons, List.chain'_singleton, and_true] at hch
  obtain ⟨hAB, hBC, hCD⟩ := hch
  have o1 : fA.1 < fA.2.1 := lt_of_le_of_lt hsbA hbeA
  have o2 : fB.1 < fB.2.1 := lt_of_le_of_lt hsbB hbeB
  have o3 : fC.1 < fC.2.1 := lt_of_le_of_lt hsbC hbeC
  have o4 : fD.1 < fD.2.1 := lt_of_le_of_lt hsbD hbeD
  have oAD : fA.1 < fD.1 := by omega
  have oeAD : fA.2.1 ≤ fD.1 := by omega
  have oDlen : fD.1 ≤ lines.length := by omega
  have oAlen : fA.1 ≤ lines.length := by omega
  have oeAlen : fA.2.1 ≤ lines.length := by omega
  have hne : parse_frames lines ≠ [] := by rw [h]; simp
  have hval : firstInvalidFrom [1] (parse_frames lines).length = none := by rw [h]; rfl
  rw [move_frames_inPlace input_file lines [1] 3 output_file lookup copy_mode hsame hne hval,
    h]
  have hfS : spanStartOf [fA, fB, fC, fD] ([1].headD 0) = fA.1 := rfl
  have hlE : spanEndOf [fA, fB, fC, fD] ([1].getLastD 0) = fA.2.1 := rfl
  have hlwlen : (lines.take fA.1 ++ lines.drop fA.2.1).length
      = fA.1 + (lines.length - fA.2.1) := by
    simp only [List.length_append, List.length_take, List.length_drop]
    omega
  have hw : walkInsert [1] 3 fA.1 ((fA.2.1 : Int) - (fA.1 : Int)) [fA, fB, fC, fD] 0 0
      = some (pyAdj fA.1 ((fA.2.1 : Int) - (fA.1 : Int)) fD.1) := rfl
  have hins : inPlaceInsertAt [fA, fB, fC, fD] [1] 3 fA.1 ((fA.2.1 : Int) - (fA.1 : Int))
      (lines.take fA.1 ++ lines.drop fA.2.1).length
      = (fD.1 : Int) - ((fA.2.1 : Int) - (fA.1 : Int)) := by
    rw [inPlaceInsertAt, hw, pyAdj, if_pos oAD]
  have hKnat : ((fD.1 : Int) - ((fA.2.1 : Int) - (fA.1 : Int))).toNat
      = fA.1 + (fD.1 - fA.2.1) := by omega
  have htake : pyTake ((fD.1 : Int) - ((fA.2.1 : Int) - (fA.1 : Int)))
      (lines.take fA.1 ++ lines.drop fA.2.1)
      = lines.take fA.1 ++ sliceL lines fA.2.1 fD.1 := by
    rw [pyTake, pyIdx, if_pos (by omega), hKnat, hlwlen, Nat.min_eq_left (by omega),
      List.take_append_eq_append_take,
      List.take_of_length_le (by simp only [List.length_take]; omega)]
    congr 1
    have h3 : fA.1 + (fD.1 - fA.2.1) - (lines.take fA.1).length = fD.1 - fA.2.1 := by
      simp only [List.length_take]
      omega
    rw [h3, sliceL, List.drop_take]
  have hdrop : pyDrop ((fD.1 : Int) - ((fA.2.1 : Int) - (fA.1 : Int)))
      (lines.take fA.1 ++ lines.drop fA.2.1) = lines.drop fD.1 := by
    rw [pyDrop, pyIdx, if_pos (by omega), hKnat, hlwlen, Nat.min_eq_left (by omega),
      List.drop_append_eq_append_drop,
      List.drop_eq_nil_of_le (by simp only [List.length_take]; omega)]
    have h3 : fA.1 + (fD.1 - fA.2.1) - (lines.take fA.1).length = fD.1 - fA.2.1 := by
      simp only [List.length_take]
      omega
    rw [h3, List.nil_append, List.drop_drop]
    congr 1
    omega
  have hcomb : combinedFrameLines [fA, fB, fC, fD] [1] = fA.2.2 := by
    simp [combinedFrameLines, frameLinesAt]
  rw [inPlaceMove, if_neg (by norm_num), if_neg (by decide)]
  simp only [hfS, hlE, hins, htake, hdrop, hcomb, htA]

/-- Witness for C5 at a concrete four-block document (blocks A, B, C, D with
a leading comment on A, a body line in A, and blank separator lines): the
move of position 1 to position 3 produces the predicted document, and
re-parsing that document yields the span texts in order B, C, A, D. -/
theorem c5_witness :
    move_frames "a.tex"
        ["% intro", "\\begin{frame}{A}", "a body", "\\end{frame}", "",
         "\\begin{frame}{B}", "\\end{frame}", "", "\\begin{frame}{C}", "\\end{frame}",
         "", "\\begin{frame}{D}", "\\end{frame}", ""] [1] 3 none (fun _ => none) false
      = .ok [("a.tex",
          ["", "\\begin{frame}{B}", "\\end{frame}", "", "\\begin{frame}{C}", "\\end{frame}",
           "", "% intro", "\\begin{frame}{A}", "a body", "\\end{frame}",
           "\\begin{frame}{D}", "\\end{frame}", ""])] ∧
    (parse_frames
        ["", "\\begin{frame}{B}", "\\end{frame}", "", "\\begin{frame}{C}", "\\end{frame}",
         "", "% intro", "\\begin{frame}{A}", "a body", "\\end{frame}",
         "\\begin{frame}{D}", "\\end{frame}", ""]).map (fun f => f.2.2)
      = [["\\begin{frame}{B}", "\\end{frame}"], ["\\begin{frame}{C}", "\\end{frame}"],
         ["% intro", "\\begin{frame}{A}", "a body", "\\end{frame}"],
         ["\\begin{frame}{D}", "\\end{frame}"]] := by
  have h := c5_move_first_to_third "a.tex"
    ["% intro", "\\begin{frame}{A}", "a body", "\\end{frame}", "",
     "\\begin{frame}{B}", "\\end{frame}", "", "\\begin{frame}{C}", "\\end{frame}",
     "", "\\begin{frame}{D}", "\\end{frame}", ""] (fun _ => none) false none (Or.inl rfl)
    (0, 4, ["% intro", "\\begin{frame}{A}", "a body", "\\end{frame}"])
    (5, 7, ["\\begin{frame}{B}", "\\end{frame}"])
    (8, 10, ["\\begin{frame}{C}", "\\end{frame}"])
    (11, 13, ["\\begin{frame}{D}", "\\end{frame}"]) (by decide)
  exact ⟨h.trans (congrArg Except.ok (by decide)), by decide⟩

end MoveFrame
